import Mathlib

/-!
Verification of the hydrostatic column integrator of `erftools/input_sounding.py`
(`InputSounding.integrate_column_wrf` and `InputSounding.integrate_column`).

The numeric state of the Python code (numpy float64 arrays) is embedded over `ℚ`.
The single floating-point operation with an irrational exponent,
`(pm/p0)**cvpm`, is abstracted as a function field `pw : ℚ → ℚ` of the constants
structure; every other arithmetic operation is translated literally.  Theorems
that need analytic facts about the power function (positivity on positive
arguments, antitonicity for the negative exponent `cvpm`) take them as explicit
hypotheses on `pw`.
-/

namespace ERFTools

/-- Modelled from the spec: the module `erftools/constants.py` (imported by
`input_sounding.py` as `from .constants import R_d, c_p, g, p0, rvovrd, cvpm`)
is not part of the sources given under `src/`.  Per the spec these are fixed
physical constants: dry-air gas constant `R_d`, specific heat `c_p`, gravity
`g`, reference pressure `p0`, the ratio `rvovrd = R_v/R_d`, and the derived
equation-of-state exponent `cvpm = -(1 - R_d/c_p)`.  Their numeric values are
not pinned by the spec, so they are carried as parameters here.  The field
`pw` models the map `x ↦ x ** cvpm`; because `cvpm` is a non-integer
exponent this map is kept abstract over `ℚ`. -/
structure Consts where
  R_d : ℚ
  c_p : ℚ
  g : ℚ
  p0 : ℚ
  rvovrd : ℚ
  pw : ℚ → ℚ

/-- One row of the level table: height `z`, dry potential temperature `th`,
water-vapor mixing ratio `qv` (already unit-normalized, as in the constructor
of `InputSounding`).  The wind columns `u`, `v` are never read by either
integration routine and are omitted. -/
structure Level where
  z : ℚ
  th : ℚ
  qv : ℚ
deriving DecidableEq, Repr

/-- The input state held on an `InputSounding` object that the integration
routines read: surface record plus the level table. -/
structure Sounding where
  p_surf : ℚ
  th_surf : ℚ
  qv_surf : ℚ
  levels : List Level
deriving DecidableEq, Repr

/-- The derived arrays `self.rho`, `self.thm`, `self.pm`, `self.p`, each
allocated as `np.zeros(N)` at the start of an integration call. -/
structure Profile where
  rho : List ℚ
  thm : List ℚ
  pm : List ℚ
  p : List ℚ
deriving DecidableEq, Repr

/-- The two moisture-correction formulations offered by the source: `LEGACY`
is `integrate_column_wrf` (WRF's "moist theta"), `VIRTUAL_POTENTIAL_TEMPERATURE`
is `integrate_column`. -/
inductive Formulation where
  | LEGACY
  | VIRTUAL_POTENTIAL_TEMPERATURE
deriving DecidableEq, Repr

/-- Per-level moisture correction factor `qvf`:
`1 + rvovrd*qv` in `integrate_column_wrf` (lines 45/60/74),
`1 + (rvovrd-1)*qv` in `integrate_column` (lines 123/139). -/
def qvfOf (C : Consts) (f : Formulation) (qv : ℚ) : ℚ :=
  match f with
  | .LEGACY => 1 + C.rvovrd * qv
  | .VIRTUAL_POTENTIAL_TEMPERATURE => 1 + (C.rvovrd - 1) * qv

/-- Level-table access `z[k]`/`th[k]`/`qv[k]`.  All indices used by the
integration loops are in bounds for a well-formed table; the default row only
matters for degenerate tables. -/
def lvD (s : Sounding) (k : ℕ) : Level := s.levels.getD k ⟨0, 0, 0⟩

/-- The moisture factor used to form `rho_surf`.  In `integrate_column_wrf`
(line 45) it is `1 + rvovrd*qv[0]`, i.e. it reads the lowest table level; in
`integrate_column` (line 108) it is `1 + (rvovrd-1)*qv_surf`, i.e. it reads
the surface record. -/
def qvfSurfOf (C : Consts) (f : Formulation) (s : Sounding) : ℚ :=
  match f with
  | .LEGACY => 1 + C.rvovrd * (lvD s 0).qv
  | .VIRTUAL_POTENTIAL_TEMPERATURE => 1 + (C.rvovrd - 1) * s.qv_surf

/-- Equation of state as written in the source:
`rho = 1/((R_d/p0)*th*qvf*((P/p0)**cvpm))`, with `(P/p0)**cvpm` rendered as
`C.pw (P/p0)`. -/
def rho_eos (C : Consts) (th qvf pm : ℚ) : ℚ :=
  1 / ((C.R_d / C.p0) * th * qvf * C.pw (pm / C.p0))

/-- One iteration of the inner fixed-point loop shared by stage 1 and stage 2:
recompute `pm` from the hydrostatic step, then `rho` from the equation of
state.  `pPrev` is the pressure of the level below (`p_surf` for stage 1),
`rhoPrev` the density of the level below (`rho_surf` for stage 1); the state
`st` carries the current `(pm, rho)` of the level being relaxed. -/
def relaxStep (C : Consts) (pPrev dz th qvf qvf1 rhoPrev : ℚ) (st : ℚ × ℚ) : ℚ × ℚ :=
  let pm := pPrev - 1/2 * dz * (st.2 + rhoPrev) * C.g * qvf1
  (pm, rho_eos C th qvf pm)

/-- The stage-1 inner loop (`for i in range(Niter)`, lines 64-66 / 127-129):
a fixed number of `relaxStep`s with no check of any kind. -/
def relaxFree (C : Consts) (pPrev dz th qvf qvf1 rhoPrev : ℚ) : ℕ → ℚ × ℚ → ℚ × ℚ
  | 0, st => st
  | n + 1, st =>
      relaxFree C pPrev dz th qvf qvf1 rhoPrev n (relaxStep C pPrev dz th qvf qvf1 rhoPrev st)

/-- The stage-2 inner loop (lines 75-79 / 140-144): after writing `pm[k]` the
source runs `assert self.pm[k] > 0`; on failure the loop aborts with `pm[k]`
holding the offending non-positive value and `rho[k]` still holding the value
of the last completed iteration. -/
def relaxChecked (C : Consts) (pPrev dz th qvf qvf1 rhoPrev : ℚ) :
    ℕ → ℚ × ℚ → Except (ℚ × ℚ) (ℚ × ℚ)
  | 0, st => .ok st
  | n + 1, st =>
      let pm := pPrev - 1/2 * dz * (st.2 + rhoPrev) * C.g * qvf1
      if pm ≤ 0 then .error (pm, st.2)
      else relaxChecked C pPrev dz th qvf qvf1 rhoPrev n (pm, rho_eos C th qvf pm)

/-- The message of the `AssertionError` raised by both integration routines
(lines 78 / 143).  It is a fixed string: it carries neither the failing level
index nor any pressure value. -/
def tooColdMsg : String := "too cold for chosen height"

/-- What surfaces when the stage-2 assertion fires: the exception message and
the partially-written arrays left on the object. -/
structure FailState where
  msg : String
  prof : Profile
deriving DecidableEq, Repr

/-- Stage 1 (lines 59-67 / 122-130): allocate the four zero arrays, compute
`rho_surf` from the surface record, then relax level 0 against the surface
for exactly `n` iterations and set `thm[0] = th[0]*qvf`. -/
def stage1 (C : Consts) (f : Formulation) (s : Sounding) (n : ℕ) : Profile :=
  let N := s.levels.length
  let rho_surf := rho_eos C s.th_surf (qvfSurfOf C f s) s.p_surf
  let lv0 := lvD s 0
  let qvf := qvfOf C f lv0.qv
  let qvf1 := 1 + lv0.qv
  let r := relaxFree C s.p_surf lv0.z lv0.th qvf qvf1 rho_surf n (0, rho_surf)
  { rho := (List.replicate N 0).set 0 r.2
    thm := (List.replicate N 0).set 0 (lv0.th * qvf)
    pm := (List.replicate N 0).set 0 r.1
    p := List.replicate N 0 }

/-- One body of the stage-2 loop `for k in range(1,N)` (lines 70-80 /
135-145): `rho[k]` is initialized to `rho[k-1]`, the checked inner loop runs,
and on success `thm[k] = th[k]*qvf` is written.  On assertion failure the
partially-written arrays are surfaced together with the fixed message. -/
def stage2Level (C : Consts) (f : Formulation) (s : Sounding) (n : ℕ)
    (prof : Profile) (k : ℕ) : Except FailState Profile :=
  let lvk := lvD s k
  let lvp := lvD s (k - 1)
  let rhoPrev := prof.rho.getD (k - 1) 0
  let pmPrev := prof.pm.getD (k - 1) 0
  let dz := lvk.z - lvp.z
  let qvf1 := 1/2 * (2 + (lvp.qv + lvk.qv))
  let qvf := qvfOf C f lvk.qv
  match relaxChecked C pmPrev dz lvk.th qvf qvf1 rhoPrev n (0, rhoPrev) with
  | .ok st =>
      .ok { prof with
              rho := prof.rho.set k st.2
              pm := prof.pm.set k st.1
              thm := prof.thm.set k (lvk.th * qvf) }
  | .error st =>
      .error ⟨tooColdMsg,
              { prof with rho := prof.rho.set k st.2, pm := prof.pm.set k st.1 }⟩

/-- The stage-2 loop driver: `count` remaining levels starting at index `k`.
Parametrized over the level body so that both source routines share it. -/
def stage2Aux (lvl : Profile → ℕ → Except FailState Profile) :
    ℕ → ℕ → Profile → Except FailState Profile
  | 0, _, prof => .ok prof
  | c + 1, k, prof =>
      match lvl prof k with
      | .ok p2 => stage2Aux lvl c (k + 1) p2
      | .error e => .error e

/-- The stage-3 downward loop `for k in range(N-2,-1,-1)` (lines 86-88 /
153-155), writing `p[k]` from the already-final `p[k+1]` and densities. -/
def stage3down (C : Consts) (s : Sounding) : ℕ → ℕ → Profile → Profile
  | 0, _, prof => prof
  | c + 1, k, prof =>
      let dz := (lvD s (k + 1)).z - (lvD s k).z
      let pk := prof.p.getD (k + 1) 0
                  + 1/2 * dz * (prof.rho.getD k 0 + prof.rho.getD (k + 1) 0) * C.g
      stage3down C s c (k - 1) { prof with p := prof.p.set k pk }

/-- Stage 3 (lines 85-88 / 152-155): `p[N-1] = pm[N-1]`, then the single
downward non-iterative pass. -/
def stage3 (C : Consts) (s : Sounding) (prof : Profile) : Profile :=
  let N := s.levels.length
  let prof1 := { prof with p := prof.p.set (N - 1) (prof.pm.getD (N - 1) 0) }
  stage3down C s (N - 1) (N - 2) prof1

/-- The unified integration operation of the spec:
`integrate(surface, levels, formulation, iterations)`.  Stage 3 runs only if
stage 2 completed; an assertion failure propagates together with the
partially-written arrays.  Neither source routine performs any validation of
the input shape before integrating. -/
def integrate (C : Consts) (f : Formulation) (s : Sounding) (n : ℕ) :
    Except FailState Profile :=
  match stage2Aux (stage2Level C f s n) (s.levels.length - 1) 1 (stage1 C f s n) with
  | .ok prof => .ok (stage3 C s prof)
  | .error e => .error e

/-- Direct embedding of stage 1 of `integrate_column_wrf` (lines 45-67): the
surface factor and the level-0 factor are both `1 + rvovrd*qv[0]`. -/
def wrfStage1 (C : Consts) (s : Sounding) (n : ℕ) : Profile :=
  let N := s.levels.length
  let rho_surf := rho_eos C s.th_surf (1 + C.rvovrd * (lvD s 0).qv) s.p_surf
  let lv0 := lvD s 0
  let qvf := 1 + C.rvovrd * lv0.qv
  let qvf1 := 1 + lv0.qv
  let r := relaxFree C s.p_surf lv0.z lv0.th qvf qvf1 rho_surf n (0, rho_surf)
  { rho := (List.replicate N 0).set 0 r.2
    thm := (List.replicate N 0).set 0 (lv0.th * qvf)
    pm := (List.replicate N 0).set 0 r.1
    p := List.replicate N 0 }

/-- Direct embedding of the stage-2 body of `integrate_column_wrf`
(lines 70-80): `qvf = 1 + rvovrd*qv[k]`. -/
def wrfLevel (C : Consts) (s : Sounding) (n : ℕ)
    (prof : Profile) (k : ℕ) : Except FailState Profile :=
  let lvk := lvD s k
  let lvp := lvD s (k - 1)
  let rhoPrev := prof.rho.getD (k - 1) 0
  let pmPrev := prof.pm.getD (k - 1) 0
  let dz := lvk.z - lvp.z
  let qvf1 := 1/2 * (2 + (lvp.qv + lvk.qv))
  let qvf := 1 + C.rvovrd * lvk.qv
  match relaxChecked C pmPrev dz lvk.th qvf qvf1 rhoPrev n (0, rhoPrev) with
  | .ok st =>
      .ok { prof with
              rho := prof.rho.set k st.2
              pm := prof.pm.set k st.1
              thm := prof.thm.set k (lvk.th * qvf) }
  | .error st =>
      .error ⟨tooColdMsg,
              { prof with rho := prof.rho.set k st.2, pm := prof.pm.set k st.1 }⟩

/-- Direct embedding of `InputSounding.integrate_column_wrf` (lines 34-92). -/
def integrateColumnWrf (C : Consts) (s : Sounding) (n : ℕ) :
    Except FailState Profile :=
  match stage2Aux (wrfLevel C s n) (s.levels.length - 1) 1 (wrfStage1 C s n) with
  | .ok prof => .ok (stage3 C s prof)
  | .error e => .error e

/-- Direct embedding of stage 1 of `integrate_column` (lines 108-130): the
surface factor is `1 + (rvovrd-1)*qv_surf` (line 108) while the level-0
factor is `1 + (rvovrd-1)*qv[0]` (line 123). -/
def vptStage1 (C : Consts) (s : Sounding) (n : ℕ) : Profile :=
  let N := s.levels.length
  let rho_surf := rho_eos C s.th_surf (1 + (C.rvovrd - 1) * s.qv_surf) s.p_surf
  let lv0 := lvD s 0
  let qvf := 1 + (C.rvovrd - 1) * lv0.qv
  let qvf1 := 1 + lv0.qv
  let r := relaxFree C s.p_surf lv0.z lv0.th qvf qvf1 rho_surf n (0, rho_surf)
  { rho := (List.replicate N 0).set 0 r.2
    thm := (List.replicate N 0).set 0 (lv0.th * qvf)
    pm := (List.replicate N 0).set 0 r.1
    p := List.replicate N 0 }

/-- Direct embedding of the stage-2 body of `integrate_column`
(lines 135-145): `qvf = 1 + (rvovrd-1)*qv[k]`. -/
def vptLevel (C : Consts) (s : Sounding) (n : ℕ)
    (prof : Profile) (k : ℕ) : Except FailState Profile :=
  let lvk := lvD s k
  let lvp := lvD s (k - 1)
  let rhoPrev := prof.rho.getD (k - 1) 0
  let pmPrev := prof.pm.getD (k - 1) 0
  let dz := lvk.z - lvp.z
  let qvf1 := 1/2 * (2 + (lvp.qv + lvk.qv))
  let qvf := 1 + (C.rvovrd - 1) * lvk.qv
  match relaxChecked C pmPrev dz lvk.th qvf qvf1 rhoPrev n (0, rhoPrev) with
  | .ok st =>
      .ok { prof with
              rho := prof.rho.set k st.2
              pm := prof.pm.set k st.1
              thm := prof.thm.set k (lvk.th * qvf) }
  | .error st =>
      .error ⟨tooColdMsg,
              { prof with rho := prof.rho.set k st.2, pm := prof.pm.set k st.1 }⟩

/-- Direct embedding of `InputSounding.integrate_column` (lines 95-159). -/
def integrateColumn (C : Consts) (s : Sounding) (n : ℕ) :
    Except FailState Profile :=
  match stage2Aux (vptLevel C s n) (s.levels.length - 1) 1 (vptStage1 C s n) with
  | .ok prof => .ok (stage3 C s prof)
  | .error e => .error e

/-- `integrate_column_wrf` is the unified algorithm at `LEGACY`. -/
lemma integrateColumnWrf_eq (C : Consts) (s : Sounding) (n : ℕ) :
    integrateColumnWrf C s n = integrate C .LEGACY s n := rfl

/-- `integrate_column` is the unified algorithm at
`VIRTUAL_POTENTIAL_TEMPERATURE`. -/
lemma integrateColumn_eq (C : Consts) (s : Sounding) (n : ℕ) :
    integrateColumn C s n = integrate C .VIRTUAL_POTENTIAL_TEMPERATURE s n := rfl

/-! ### Spec-side per-level recurrence

Closed-form description of the values stage 1 and stage 2 write, used to state
the functional-correctness claims. -/

/-- Trapezoidal moisture weight: `1 + qv[0]` at level 0 (lines 61/124),
`0.5*(2 + qv[k-1] + qv[k])` at higher levels (lines 73/138). -/
def qvf1At (s : Sounding) (k : ℕ) : ℚ :=
  if k = 0 then 1 + (lvD s 0).qv
  else 1/2 * (2 + ((lvD s (k - 1)).qv + (lvD s k).qv))

/-- Height increment: `z[0]` at level 0 (line 63/126), `z[k]-z[k-1]` above. -/
def dzAt (s : Sounding) (k : ℕ) : ℚ :=
  if k = 0 then (lvD s 0).z else (lvD s k).z - (lvD s (k - 1)).z

/-- Per-level `qvf` of the chosen formulation. -/
def qvfAt (C : Consts) (f : Formulation) (s : Sounding) (k : ℕ) : ℚ :=
  qvfOf C f (lvD s k).qv

/-- `rho_surf` as computed before the loops. -/
def rhoSurfOf (C : Consts) (f : Formulation) (s : Sounding) : ℚ :=
  rho_eos C s.th_surf (qvfSurfOf C f s) s.p_surf

/-- The `(pm[k], rho[k])` pair each level converges to after exactly `n`
unchecked relaxation iterations, level by level. -/
def specPair (C : Consts) (f : Formulation) (s : Sounding) (n : ℕ) : ℕ → ℚ × ℚ
  | 0 =>
      relaxFree C s.p_surf (dzAt s 0) (lvD s 0).th (qvfAt C f s 0) (qvf1At s 0)
        (rhoSurfOf C f s) n (0, rhoSurfOf C f s)
  | k + 1 =>
      let prev := specPair C f s n k
      relaxFree C prev.1 (dzAt s (k + 1)) (lvD s (k + 1)).th (qvfAt C f s (k + 1))
        (qvf1At s (k + 1)) prev.2 n (0, prev.2)

/-- Pressure of the level below level `k` (`p_surf` below level 0). -/
def pPrevAt (C : Consts) (f : Formulation) (s : Sounding) (n : ℕ) (k : ℕ) : ℚ :=
  if k = 0 then s.p_surf else (specPair C f s n (k - 1)).1

/-- Density of the level below level `k` (`rho_surf` below level 0). -/
def rhoPrevAt (C : Consts) (f : Formulation) (s : Sounding) (n : ℕ) (k : ℕ) : ℚ :=
  if k = 0 then rhoSurfOf C f s else (specPair C f s n (k - 1)).2

/-- The inner-loop step at level `k`, with all level-`k` parameters filled in. -/
def stepAt (C : Consts) (f : Formulation) (s : Sounding) (n : ℕ) (k : ℕ) :
    ℚ × ℚ → ℚ × ℚ :=
  relaxStep C (pPrevAt C f s n k) (dzAt s k) (lvD s k).th (qvfAt C f s k)
    (qvf1At s k) (rhoPrevAt C f s n k)

/-- The arrays visible on the object after a call, whether it raised or not. -/
def profOf : Except FailState Profile → Profile
  | .ok prof => prof
  | .error e => e.prof

/-- The message of the surfaced error of a failed call (empty on success). -/
def errMsgOf : Except FailState Profile → String
  | .ok _ => ""
  | .error e => e.msg

/-- The surfaced error of a failed call (trivial on success). -/
def errOf : Except FailState Profile → FailState
  | .ok _ => ⟨"", ⟨[], [], [], []⟩⟩
  | .error e => e

/-! ### Array bookkeeping lemmas -/

lemma getD_set_self (l : List ℚ) (k : ℕ) (v : ℚ) (h : k < l.length) :
    (l.set k v).getD k 0 = v := by
  simp [List.getD_eq_getElem?_getD, List.getElem?_set_self h]

lemma getD_set_ne (l : List ℚ) (k j : ℕ) (v : ℚ) (h : k ≠ j) :
    (l.set k v).getD j 0 = l.getD j 0 := by
  simp [List.getD_eq_getElem?_getD, List.getElem?_set_ne h]

lemma getD_replicate (N j : ℕ) : (List.replicate N (0 : ℚ)).getD j 0 = 0 := by
  simp only [List.getD_eq_getElem?_getD, List.getElem?_replicate]
  split <;> simp

/-! ### Inner-loop anatomy -/

lemma relaxFree_eq_iterate (C : Consts) (pPrev dz th qvf qvf1 rhoPrev : ℚ) (n : ℕ) :
    ∀ st, relaxFree C pPrev dz th qvf qvf1 rhoPrev n st
      = (relaxStep C pPrev dz th qvf qvf1 rhoPrev)^[n] st := by
  induction n with
  | zero => intro st; rfl
  | succ n ih =>
      intro st
      rw [relaxFree, ih, ← Function.iterate_succ_apply]

lemma relaxStep_fst (C : Consts) (pPrev dz th qvf qvf1 rhoPrev : ℚ) (st : ℚ × ℚ) :
    (relaxStep C pPrev dz th qvf qvf1 rhoPrev st).1
      = pPrev - 1/2 * dz * (st.2 + rhoPrev) * C.g * qvf1 := rfl

lemma relaxStep_snd (C : Consts) (pPrev dz th qvf qvf1 rhoPrev : ℚ) (st : ℚ × ℚ) :
    (relaxStep C pPrev dz th qvf qvf1 rhoPrev st).2
      = rho_eos C th qvf (relaxStep C pPrev dz th qvf qvf1 rhoPrev st).1 := rfl

/-- After at least one iteration the density is the equation of state applied
to the just-written pressure. -/
lemma relaxFree_snd_eos (C : Consts) (pPrev dz th qvf qvf1 rhoPrev : ℚ) (n : ℕ)
    (hn : 1 ≤ n) (st : ℚ × ℚ) :
    (relaxFree C pPrev dz th qvf qvf1 rhoPrev n st).2
      = rho_eos C th qvf (relaxFree C pPrev dz th qvf qvf1 rhoPrev n st).1 := by
  obtain ⟨m, rfl⟩ := Nat.exists_eq_add_of_le hn
  rw [relaxFree_eq_iterate, Nat.add_comm 1 m, Function.iterate_succ_apply',
    relaxStep_snd]

/-- A checked loop that returns a value computed exactly what the unchecked
loop computes. -/
lemma relaxChecked_ok (C : Consts) (pPrev dz th qvf qvf1 rhoPrev : ℚ) (n : ℕ) :
    ∀ st r, relaxChecked C pPrev dz th qvf qvf1 rhoPrev n st = .ok r →
      r = relaxFree C pPrev dz th qvf qvf1 rhoPrev n st := by
  induction n with
  | zero =>
      intro st r h
      cases h
      rfl
  | succ n ih =>
      intro st r h
      rw [relaxChecked] at h
      split at h
      · exact absurd h (by simp)
      · rw [relaxFree]
        exact ih _ r h

@[simp] lemma isOk_ok {ε α : Type _} (a : α) :
    (Except.ok a : Except ε α).isOk = true := rfl

@[simp] lemma isOk_error {ε α : Type _} (e : ε) :
    (Except.error e : Except ε α).isOk = false := rfl

/-- The checked loop succeeds exactly when every iteration's freshly-written
pressure is positive. -/
lemma relaxChecked_isOk_iff (C : Consts) (pPrev dz th qvf qvf1 rhoPrev : ℚ) (n : ℕ) :
    ∀ st, (relaxChecked C pPrev dz th qvf qvf1 rhoPrev n st).isOk = true ↔
      ∀ i, i < n → 0 < ((relaxStep C pPrev dz th qvf qvf1 rhoPrev)^[i + 1] st).1 := by
  induction n with
  | zero =>
      intro st
      simp [relaxChecked]
  | succ n ih =>
      intro st
      rw [relaxChecked]
      split
      · rename_i hle
        simp only [isOk_error, Bool.false_eq_true, false_iff, not_forall]
        refine ⟨0, Nat.succ_pos n, ?_⟩
        rw [Function.iterate_one, relaxStep_fst]
        exact not_lt.mpr hle
      · rename_i hgt
        push_neg at hgt
        have heq : (pPrev - 1/2 * dz * (st.2 + rhoPrev) * C.g * qvf1,
            rho_eos C th qvf (pPrev - 1/2 * dz * (st.2 + rhoPrev) * C.g * qvf1))
            = relaxStep C pPrev dz th qvf qvf1 rhoPrev st := rfl
        rw [heq, ih]
        constructor
        · intro hall i hi
          match i with
          | 0 =>
              rw [Function.iterate_one, relaxStep_fst]
              exact hgt
          | j + 1 =>
              rw [Function.iterate_succ_apply]
              exact hall j (by omega)
        · intro hall i hi
          have := hall (i + 1) (by omega)
          rw [Function.iterate_succ_apply] at this
          exact this

/-- Anatomy of a checked-loop failure: the surfaced pressure is the offending
non-positive value, computed by one hydrostatic step from the density of the
last completed iteration. -/
lemma relaxChecked_err (C : Consts) (pPrev dz th qvf qvf1 rhoPrev : ℚ) (n : ℕ) :
    ∀ st q r, relaxChecked C pPrev dz th qvf qvf1 rhoPrev n st = .error (q, r) →
      q ≤ 0 ∧ ∃ i, i < n ∧
        r = ((relaxStep C pPrev dz th qvf qvf1 rhoPrev)^[i] st).2 ∧
        q = (relaxStep C pPrev dz th qvf qvf1 rhoPrev
              ((relaxStep C pPrev dz th qvf qvf1 rhoPrev)^[i] st)).1 := by
  induction n with
  | zero =>
      intro st q r h
      exact absurd h (by simp [relaxChecked])
  | succ n ih =>
      intro st q r h
      rw [relaxChecked] at h
      split at h
      · rename_i hle
        injection h with h'
        injection h' with h1 h2
        subst h1
        subst h2
        refine ⟨hle, 0, Nat.succ_pos n, rfl, ?_⟩
        rw [Function.iterate_zero_apply, relaxStep_fst]
      · rename_i hgt
        obtain ⟨hq, i, hi, hr, hqe⟩ := ih _ q r h
        refine ⟨hq, i + 1, by omega, ?_, ?_⟩
        · rw [Function.iterate_succ_apply]
          exact hr
        · rw [Function.iterate_succ_apply]
          exact hqe

/-! ### Loop invariant of the upward pass -/

/-- State of the arrays when the stage-2 loop is about to process level `k`:
levels below `k` hold their finalized values, levels from `k` up still hold
the `np.zeros` initialization, and `p` is untouched. -/
def SpecMatch (C : Consts) (f : Formulation) (s : Sounding) (n : ℕ) (k : ℕ)
    (prof : Profile) : Prop :=
  prof.rho.length = s.levels.length ∧
  prof.thm.length = s.levels.length ∧
  prof.pm.length = s.levels.length ∧
  prof.p = List.replicate s.levels.length 0 ∧
  (∀ j, j < k →
    prof.pm.getD j 0 = (specPair C f s n j).1 ∧
    prof.rho.getD j 0 = (specPair C f s n j).2 ∧
    prof.thm.getD j 0 = (lvD s j).th * qvfAt C f s j) ∧
  (∀ j, k ≤ j → j < s.levels.length →
    prof.pm.getD j 0 = 0 ∧ prof.rho.getD j 0 = 0 ∧ prof.thm.getD j 0 = 0)

/-- State of the arrays surfaced by a stage-2 assertion failure at level `j`:
finalized prefix below `j`, the offending non-positive `pm[j]` computed by one
hydrostatic step from the density of the last completed inner iteration,
untouched zeros above, `p` never written, and the fixed message. -/
def ErrAnat (C : Consts) (f : Formulation) (s : Sounding) (n : ℕ)
    (e : FailState) (j : ℕ) : Prop :=
  (∀ i, i < j →
    e.prof.pm.getD i 0 = (specPair C f s n i).1 ∧
    e.prof.rho.getD i 0 = (specPair C f s n i).2 ∧
    e.prof.thm.getD i 0 = (lvD s i).th * qvfAt C f s i) ∧
  e.prof.pm.getD j 0 ≤ 0 ∧
  (∃ m, m < n ∧
    e.prof.rho.getD j 0 = ((stepAt C f s n j)^[m] (0, rhoPrevAt C f s n j)).2) ∧
  e.prof.pm.getD j 0
    = pPrevAt C f s n j
      - 1/2 * dzAt s j * (e.prof.rho.getD j 0 + rhoPrevAt C f s n j) * C.g
        * qvf1At s j ∧
  (∀ i, j ≤ i → i < s.levels.length → e.prof.thm.getD i 0 = 0) ∧
  (∀ i, j < i → i < s.levels.length →
    e.prof.pm.getD i 0 = 0 ∧ e.prof.rho.getD i 0 = 0) ∧
  e.prof.p = List.replicate s.levels.length 0 ∧
  e.msg = tooColdMsg

lemma stage1_pm (C : Consts) (f : Formulation) (s : Sounding) (n : ℕ) :
    (stage1 C f s n).pm
      = (List.replicate s.levels.length 0).set 0 (specPair C f s n 0).1 := rfl

lemma stage1_rho (C : Consts) (f : Formulation) (s : Sounding) (n : ℕ) :
    (stage1 C f s n).rho
      = (List.replicate s.levels.length 0).set 0 (specPair C f s n 0).2 := rfl

lemma stage1_thm (C : Consts) (f : Formulation) (s : Sounding) (n : ℕ) :
    (stage1 C f s n).thm
      = (List.replicate s.levels.length 0).set 0 ((lvD s 0).th * qvfAt C f s 0) :=
  rfl

lemma stage1_p (C : Consts) (f : Formulation) (s : Sounding) (n : ℕ) :
    (stage1 C f s n).p = List.replicate s.levels.length 0 := rfl

/-- After stage 1 the invariant holds with the boundary at level 1. -/
lemma stage1_specMatch (C : Consts) (f : Formulation) (s : Sounding) (n : ℕ)
    (h1 : 1 ≤ s.levels.length) : SpecMatch C f s n 1 (stage1 C f s n) := by
  have hlen : 0 < (List.replicate s.levels.length (0 : ℚ)).length := by
    simpa using h1
  refine ⟨?_, ?_, ?_, stage1_p C f s n, ?_, ?_⟩
  · rw [stage1_rho]; simp
  · rw [stage1_thm]; simp
  · rw [stage1_pm]; simp
  · intro j hj
    have hj0 : j = 0 := by omega
    subst hj0
    refine ⟨?_, ?_, ?_⟩
    · rw [stage1_pm, getD_set_self _ _ _ hlen]
    · rw [stage1_rho, getD_set_self _ _ _ hlen]
    · rw [stage1_thm, getD_set_self _ _ _ hlen]
  · intro j hj hjN
    have hne : (0 : ℕ) ≠ j := by omega
    refine ⟨?_, ?_, ?_⟩
    · rw [stage1_pm, getD_set_ne _ _ _ _ hne, getD_replicate]
    · rw [stage1_rho, getD_set_ne _ _ _ _ hne, getD_replicate]
    · rw [stage1_thm, getD_set_ne _ _ _ _ hne, getD_replicate]

/-- Unrolling of the per-level recurrence at a positive level. -/
lemma specPair_succ (C : Consts) (f : Formulation) (s : Sounding) (n m : ℕ) :
    specPair C f s n (m + 1)
      = relaxFree C (pPrevAt C f s n (m + 1)) (dzAt s (m + 1)) (lvD s (m + 1)).th
          (qvfAt C f s (m + 1)) (qvf1At s (m + 1)) (rhoPrevAt C f s n (m + 1)) n
          (0, rhoPrevAt C f s n (m + 1)) := rfl

/-- The recurrence is an `n`-fold iteration of the level step, at every level
including level 0. -/
lemma specPair_eq_iterate (C : Consts) (f : Formulation) (s : Sounding) (n k : ℕ) :
    specPair C f s n k
      = (stepAt C f s n k)^[n] (0, rhoPrevAt C f s n k) := by
  match k with
  | 0 => rw [show specPair C f s n 0 = relaxFree C (pPrevAt C f s n 0) (dzAt s 0)
          (lvD s 0).th (qvfAt C f s 0) (qvf1At s 0) (rhoPrevAt C f s n 0) n
          (0, rhoPrevAt C f s n 0) from rfl, relaxFree_eq_iterate, stepAt]
  | m + 1 => rw [specPair_succ, relaxFree_eq_iterate, stepAt]

/-- Complete case analysis of one stage-2 level body under the invariant. -/
lemma stage2Level_cases (C : Consts) (f : Formulation) (s : Sounding) (n : ℕ)
    (prof : Profile) (k : ℕ) (hk : 1 ≤ k) (hkN : k < s.levels.length)
    (hsm : SpecMatch C f s n k prof) :
    (stage2Level C f s n prof k
        = .ok { prof with rho := prof.rho.set k (specPair C f s n k).2,
                          pm := prof.pm.set k (specPair C f s n k).1,
                          thm := prof.thm.set k ((lvD s k).th * qvfAt C f s k) }
      ∧ ∀ i, i < n → 0 < ((stepAt C f s n k)^[i + 1] (0, rhoPrevAt C f s n k)).1)
    ∨ (∃ q r, stage2Level C f s n prof k
          = .error ⟨tooColdMsg,
              { prof with rho := prof.rho.set k r, pm := prof.pm.set k q }⟩
        ∧ q ≤ 0
        ∧ (∃ m, m < n ∧ r = ((stepAt C f s n k)^[m] (0, rhoPrevAt C f s n k)).2)
        ∧ q = pPrevAt C f s n k
              - 1/2 * dzAt s k * (r + rhoPrevAt C f s n k) * C.g * qvf1At s k
        ∧ ¬ ∀ i, i < n → 0 < ((stepAt C f s n k)^[i + 1] (0, rhoPrevAt C f s n k)).1) := by
  have hk0 : ¬ k = 0 := by omega
  obtain ⟨hlr, hlt', hlp, hp, hlow, hhigh⟩ := hsm
  obtain ⟨hpmj, hrhoj, _⟩ := hlow (k - 1) (by omega)
  have hpm' : prof.pm.getD (k - 1) 0 = pPrevAt C f s n k := by
    rw [hpmj, pPrevAt, if_neg hk0]
  have hrho' : prof.rho.getD (k - 1) 0 = rhoPrevAt C f s n k := by
    rw [hrhoj, rhoPrevAt, if_neg hk0]
  have e2 : (lvD s k).z - (lvD s (k - 1)).z = dzAt s k := by
    rw [dzAt, if_neg hk0]
  have e3 : 1/2 * (2 + ((lvD s (k - 1)).qv + (lvD s k).qv)) = qvf1At s k := by
    rw [qvf1At, if_neg hk0]
  have hbody : stage2Level C f s n prof k =
      match relaxChecked C (prof.pm.getD (k - 1) 0)
          ((lvD s k).z - (lvD s (k - 1)).z) (lvD s k).th (qvfOf C f (lvD s k).qv)
          (1/2 * (2 + ((lvD s (k - 1)).qv + (lvD s k).qv)))
          (prof.rho.getD (k - 1) 0) n (0, prof.rho.getD (k - 1) 0) with
      | .ok st =>
          .ok { prof with rho := prof.rho.set k st.2,
                          pm := prof.pm.set k st.1,
                          thm := prof.thm.set k ((lvD s k).th * qvfOf C f (lvD s k).qv) }
      | .error st =>
          .error ⟨tooColdMsg,
              { prof with rho := prof.rho.set k st.2, pm := prof.pm.set k st.1 }⟩ := rfl
  rw [hpm', hrho', e2, e3,
    show qvfOf C f (lvD s k).qv = qvfAt C f s k from rfl] at hbody
  have estep : relaxStep C (pPrevAt C f s n k) (dzAt s k) (lvD s k).th
      (qvfAt C f s k) (qvf1At s k) (rhoPrevAt C f s n k) = stepAt C f s n k := rfl
  have hspec : specPair C f s n k
      = relaxFree C (pPrevAt C f s n k) (dzAt s k) (lvD s k).th (qvfAt C f s k)
          (qvf1At s k) (rhoPrevAt C f s n k) n (0, rhoPrevAt C f s n k) := by
    obtain ⟨m, rfl⟩ : ∃ m, k = m + 1 := ⟨k - 1, by omega⟩
    exact specPair_succ C f s n m
  cases hres : relaxChecked C (pPrevAt C f s n k) (dzAt s k) (lvD s k).th
      (qvfAt C f s k) (qvf1At s k) (rhoPrevAt C f s n k) n
      (0, rhoPrevAt C f s n k) with
  | error st =>
      right
      obtain ⟨q, r⟩ := st
      obtain ⟨hq, m, hm, hr, hqe⟩ :=
        relaxChecked_err C (pPrevAt C f s n k) (dzAt s k) (lvD s k).th
          (qvfAt C f s k) (qvf1At s k) (rhoPrevAt C f s n k) n _ q r hres
      refine ⟨q, r, ?_, hq, ⟨m, hm, by rw [hr, estep]⟩, ?_, ?_⟩
      · rw [hbody, hres]
      · rw [hqe, relaxStep_fst, hr]
      · intro hall
        have : (relaxChecked C (pPrevAt C f s n k) (dzAt s k) (lvD s k).th
            (qvfAt C f s k) (qvf1At s k) (rhoPrevAt C f s n k) n
            (0, rhoPrevAt C f s n k)).isOk = true := by
          rw [relaxChecked_isOk_iff]
          intro i hi
          rw [estep]
          exact hall i hi
        rw [hres] at this
        exact absurd this (by simp)
  | ok st =>
      left
      have hst : st = specPair C f s n k := by
        rw [hspec]
        exact relaxChecked_ok C (pPrevAt C f s n k) (dzAt s k) (lvD s k).th
          (qvfAt C f s k) (qvf1At s k) (rhoPrevAt C f s n k) n _ st hres
      constructor
      · rw [hbody, hres, hst]
      · have : (relaxChecked C (pPrevAt C f s n k) (dzAt s k) (lvD s k).th
            (qvfAt C f s k) (qvf1At s k) (rhoPrevAt C f s n k) n
            (0, rhoPrevAt C f s n k)).isOk = true := by rw [hres]; rfl
        rw [relaxChecked_isOk_iff] at this
        intro i hi
        rw [← estep]
        exact this i hi

/-- Writing the finalized level-`k` values moves the invariant boundary up. -/
lemma specMatch_set (C : Consts) (f : Formulation) (s : Sounding) (n : ℕ)
    (prof : Profile) (k : ℕ) (hkN : k < s.levels.length)
    (hsm : SpecMatch C f s n k prof) :
    SpecMatch C f s n (k + 1)
      { prof with rho := prof.rho.set k (specPair C f s n k).2,
                  pm := prof.pm.set k (specPair C f s n k).1,
                  thm := prof.thm.set k ((lvD s k).th * qvfAt C f s k) } := by
  obtain ⟨h1, h2, h3, h4, hlow, hhigh⟩ := hsm
  refine ⟨by simpa using h1, by simpa using h2, by simpa using h3, h4, ?_, ?_⟩
  · intro j hj
    rcases Nat.lt_succ_iff_lt_or_eq.mp hj with hj' | rfl
    · obtain ⟨a, b, c⟩ := hlow j hj'
      have hne : k ≠ j := by omega
      exact ⟨by rw [getD_set_ne _ _ _ _ hne]; exact a,
             by rw [getD_set_ne _ _ _ _ hne]; exact b,
             by rw [getD_set_ne _ _ _ _ hne]; exact c⟩
    · exact ⟨by rw [getD_set_self _ _ _ (h3 ▸ hkN)],
             by rw [getD_set_self _ _ _ (h1 ▸ hkN)],
             by rw [getD_set_self _ _ _ (h2 ▸ hkN)]⟩
  · intro j hjk hjN
    have hne : k ≠ j := by omega
    obtain ⟨a, b, c⟩ := hhigh j (by omega) hjN
    exact ⟨by rw [getD_set_ne _ _ _ _ hne]; exact a,
           by rw [getD_set_ne _ _ _ _ hne]; exact b,
           by rw [getD_set_ne _ _ _ _ hne]; exact c⟩

/-- If the whole upward pass succeeds, every level holds its finalized
recurrence value. -/
lemma stage2Aux_ok_specMatch (C : Consts) (f : Formulation) (s : Sounding) (n : ℕ) :
    ∀ (c k : ℕ) (prof prof' : Profile), 1 ≤ k → k + c = s.levels.length →
      SpecMatch C f s n k prof →
      stage2Aux (stage2Level C f s n) c k prof = .ok prof' →
      SpecMatch C f s n s.levels.length prof' := by
  intro c
  induction c with
  | zero =>
      intro k prof prof' hk hkc hsm h
      have h' : (Except.ok prof : Except FailState Profile) = .ok prof' := h
      cases h'
      have hkN : k = s.levels.length := by omega
      rwa [hkN] at hsm
  | succ c ih =>
      intro k prof prof' hk hkc hsm h
      rcases stage2Level_cases C f s n prof k hk (by omega) hsm with
        ⟨hok, _⟩ | ⟨q, r, herr, _⟩
      · rw [stage2Aux, hok] at h
        exact ih (k + 1) _ prof' (by omega) (by omega)
          (specMatch_set C f s n prof k (by omega) hsm) h
      · rw [stage2Aux, herr] at h
        exact absurd h (by simp)

/-- If the upward pass fails, it fails at some level at or above the current
one, leaving exactly the partially-written state. -/
lemma stage2Aux_err_anat (C : Consts) (f : Formulation) (s : Sounding) (n : ℕ) :
    ∀ (c k : ℕ) (prof : Profile) (e : FailState), 1 ≤ k →
      k + c = s.levels.length → SpecMatch C f s n k prof →
      stage2Aux (stage2Level C f s n) c k prof = .error e →
      ∃ j, k ≤ j ∧ j < s.levels.length ∧ ErrAnat C f s n e j := by
  intro c
  induction c with
  | zero =>
      intro k prof e hk hkc hsm h
      have h' : (Except.ok prof : Except FailState Profile) = .error e := h
      exact absurd h' (by simp)
  | succ c ih =>
      intro k prof e hk hkc hsm h
      obtain ⟨h1, h2, h3, h4, hlow, hhigh⟩ := hsm
      rcases stage2Level_cases C f s n prof k hk (by omega)
          ⟨h1, h2, h3, h4, hlow, hhigh⟩ with
        ⟨hok, _⟩ | ⟨q, r, herr, hq, hrit, hqe, _⟩
      · rw [stage2Aux, hok] at h
        obtain ⟨j, hj1, hj2, hj3⟩ := ih (k + 1) _ e (by omega) (by omega)
          (specMatch_set C f s n prof k (by omega)
            ⟨h1, h2, h3, h4, hlow, hhigh⟩) h
        exact ⟨j, by omega, hj2, hj3⟩
      · rw [stage2Aux, herr] at h
        have h' : (Except.error (⟨tooColdMsg,
            { prof with rho := prof.rho.set k r, pm := prof.pm.set k q }⟩ :
              FailState) : Except FailState Profile) = .error e := h
        injection h' with h''
        subst h''
        refine ⟨k, le_refl k, by omega, ?_, ?_, ?_, ?_, ?_, ?_, h4, rfl⟩
        · intro i hi
          obtain ⟨a, b, c'⟩ := hlow i hi
          have hne : k ≠ i := by omega
          exact ⟨by rw [getD_set_ne _ _ _ _ hne]; exact a,
                 by rw [getD_set_ne _ _ _ _ hne]; exact b, c'⟩
        · rw [getD_set_self _ _ _ (h3 ▸ (by omega : k < s.levels.length))]
          exact hq
        · obtain ⟨m, hm, hr⟩ := hrit
          exact ⟨m, hm,
            by rw [getD_set_self _ _ _ (h1 ▸ (by omega : k < s.levels.length))]
               exact hr⟩
        · rw [getD_set_self _ _ _ (h3 ▸ (by omega : k < s.levels.length)),
              getD_set_self _ _ _ (h1 ▸ (by omega : k < s.levels.length))]
          exact hqe
        · intro i hik hiN
          exact (hhigh i (by omega) hiN).2.2
        · intro i hik hiN
          have hne : k ≠ i := by omega
          obtain ⟨a, b, _⟩ := hhigh i (by omega) hiN
          exact ⟨by rw [getD_set_ne _ _ _ _ hne]; exact a,
                 by rw [getD_set_ne _ _ _ _ hne]; exact b⟩

/-- The upward pass succeeds exactly when every inner iteration of every
remaining level writes a positive pressure. -/
lemma stage2Aux_isOk_iff (C : Consts) (f : Formulation) (s : Sounding) (n : ℕ) :
    ∀ (c k : ℕ) (prof : Profile), 1 ≤ k → k + c = s.levels.length →
      SpecMatch C f s n k prof →
      ((stage2Aux (stage2Level C f s n) c k prof).isOk = true ↔
        ∀ j, k ≤ j → j < s.levels.length →
          ∀ i, i < n → 0 < ((stepAt C f s n j)^[i + 1] (0, rhoPrevAt C f s n j)).1) := by
  intro c
  induction c with
  | zero =>
      intro k prof hk hkc hsm
      constructor
      · intro _ j hj1 hj2 i hi
        omega
      · intro _
        rfl
  | succ c ih =>
      intro k prof hk hkc hsm
      rcases stage2Level_cases C f s n prof k hk (by omega) hsm with
        ⟨hok, hchecks⟩ | ⟨q, r, herr, _, _, _, hnot⟩
      · rw [stage2Aux, hok,
          ih (k + 1) _ (by omega) (by omega)
            (specMatch_set C f s n prof k (by omega) hsm)]
        constructor
        · intro hall j hj1 hj2 i hi
          rcases Nat.eq_or_lt_of_le hj1 with rfl | hj1'
          · exact hchecks i hi
          · exact hall j (by omega) hj2 i hi
        · intro hall j hj1 hj2 i hi
          exact hall j (by omega) hj2 i hi
      · rw [stage2Aux, herr]
        simp only [isOk_error, Bool.false_eq_true, false_iff]
        intro hall
        exact hnot (hall k (le_refl k) (by omega))

/-! ### The downward pass -/

/-- The downward pass never touches the moist arrays. -/
lemma stage3down_rtp (C : Consts) (s : Sounding) :
    ∀ (c k : ℕ) (prof : Profile),
      (stage3down C s c k prof).rho = prof.rho ∧
      (stage3down C s c k prof).thm = prof.thm ∧
      (stage3down C s c k prof).pm = prof.pm := by
  intro c
  induction c with
  | zero => intro k prof; exact ⟨rfl, rfl, rfl⟩
  | succ c ih => intro k prof; exact ih (k - 1) _

/-- The downward pass preserves the length of the dry-pressure array. -/
lemma stage3down_p_length (C : Consts) (s : Sounding) :
    ∀ (c k : ℕ) (prof : Profile),
      (stage3down C s c k prof).p.length = prof.p.length := by
  intro c
  induction c with
  | zero => intro k prof; rfl
  | succ c ih =>
      intro k prof
      rw [show stage3down C s (c + 1) k prof
          = stage3down C s c (k - 1)
              { prof with p := prof.p.set k (prof.p.getD (k + 1) 0
                  + 1/2 * ((lvD s (k + 1)).z - (lvD s k).z)
                    * (prof.rho.getD k 0 + prof.rho.getD (k + 1) 0) * C.g) }
          from rfl, ih]
      simp

/-- Index-level description of the completed downward pass starting at `k`:
indices above `k` keep their old values and every index up to `k` satisfies
the downward trapezoidal recurrence. -/
lemma stage3down_spec (C : Consts) (s : Sounding) :
    ∀ (k : ℕ) (prof : Profile), k + 2 ≤ s.levels.length →
      prof.p.length = s.levels.length →
      (∀ j, k < j →
        (stage3down C s (k + 1) k prof).p.getD j 0 = prof.p.getD j 0) ∧
      (∀ j, j ≤ k →
        (stage3down C s (k + 1) k prof).p.getD j 0
          = (stage3down C s (k + 1) k prof).p.getD (j + 1) 0
            + 1/2 * ((lvD s (j + 1)).z - (lvD s j).z)
              * (prof.rho.getD j 0 + prof.rho.getD (j + 1) 0) * C.g) := by
  intro k
  induction k with
  | zero =>
      intro prof h2 hlen
      have hred : stage3down C s 1 0 prof
          = { prof with p := prof.p.set 0 (prof.p.getD 1 0
              + 1/2 * ((lvD s 1).z - (lvD s 0).z)
                * (prof.rho.getD 0 0 + prof.rho.getD 1 0) * C.g) } := rfl
      rw [hred]
      constructor
      · intro j hj
        exact getD_set_ne _ _ _ _ (by omega)
      · intro j hj
        have hj0 : j = 0 := by omega
        subst hj0
        rw [getD_set_self _ _ _ (by omega), getD_set_ne _ _ _ _ (by omega)]
  | succ k ih =>
      intro prof h2 hlen
      have hred : stage3down C s (k + 2) (k + 1) prof
          = stage3down C s (k + 1) k
              { prof with p := prof.p.set (k + 1) (prof.p.getD (k + 2) 0
                  + 1/2 * ((lvD s (k + 2)).z - (lvD s (k + 1)).z)
                    * (prof.rho.getD (k + 1) 0 + prof.rho.getD (k + 2) 0) * C.g) } :=
        rfl
      obtain ⟨ihu, ihr⟩ := ih
        { prof with p := prof.p.set (k + 1) (prof.p.getD (k + 2) 0
            + 1/2 * ((lvD s (k + 2)).z - (lvD s (k + 1)).z)
              * (prof.rho.getD (k + 1) 0 + prof.rho.getD (k + 2) 0) * C.g) }
        (by omega) (by simpa using hlen)
      rw [hred]
      constructor
      · intro j hj
        rw [ihu j (by omega)]
        exact getD_set_ne _ _ _ _ (by omega)
      · intro j hj
        rcases Nat.lt_or_ge j (k + 1) with hj' | hj'
        · exact ihr j (by omega)
        · have hjeq : j = k + 1 := by omega
          subst hjeq
          rw [ihu (k + 1) (by omega), ihu (k + 2) (by omega),
            getD_set_self _ _ _ (by rw [hlen]; omega),
            getD_set_ne _ _ _ _ (by omega)]

/-- Stage 3 never touches the moist arrays. -/
lemma stage3_rtp (C : Consts) (s : Sounding) (prof : Profile) :
    (stage3 C s prof).rho = prof.rho ∧ (stage3 C s prof).thm = prof.thm ∧
      (stage3 C s prof).pm = prof.pm := by
  have hred : stage3 C s prof
      = stage3down C s (s.levels.length - 1) (s.levels.length - 2)
          { prof with
              p := (prof.p.set (s.levels.length - 1)
                      (prof.pm.getD (s.levels.length - 1) 0)) } := rfl
  rw [hred]
  exact stage3down_rtp C s _ _ _

/-- Stage 3 preserves the length of the dry-pressure array. -/
lemma stage3_p_length (C : Consts) (s : Sounding) (prof : Profile) :
    (stage3 C s prof).p.length = prof.p.length := by
  have hred : stage3 C s prof
      = stage3down C s (s.levels.length - 1) (s.levels.length - 2)
          { prof with
              p := (prof.p.set (s.levels.length - 1)
                      (prof.pm.getD (s.levels.length - 1) 0)) } := rfl
  rw [hred, stage3down_p_length]
  simp

/-- The dry-pressure output of stage 3: top boundary copied from `pm`,
downward trapezoidal recurrence below, in terms of the input densities. -/
lemma stage3_p_spec (C : Consts) (s : Sounding) (prof : Profile)
    (hlen : prof.p.length = s.levels.length) (hN : 1 ≤ s.levels.length) :
    (stage3 C s prof).p.getD (s.levels.length - 1) 0
        = prof.pm.getD (s.levels.length - 1) 0 ∧
      ∀ j, j + 1 < s.levels.length →
        (stage3 C s prof).p.getD j 0
          = (stage3 C s prof).p.getD (j + 1) 0
            + 1/2 * ((lvD s (j + 1)).z - (lvD s j).z)
              * (prof.rho.getD j 0 + prof.rho.getD (j + 1) 0) * C.g := by
  have hred : stage3 C s prof
      = stage3down C s (s.levels.length - 1) (s.levels.length - 2)
          { prof with
              p := (prof.p.set (s.levels.length - 1)
                      (prof.pm.getD (s.levels.length - 1) 0)) } := rfl
  obtain ⟨M, hM⟩ : ∃ M, s.levels.length = M + 1 := ⟨s.levels.length - 1, by omega⟩
  rw [hred, hM]
  simp only [Nat.add_sub_cancel]
  cases M with
  | zero =>
      constructor
      · rw [show stage3down C s 0 (0 + 1 - 2)
            { prof with p := prof.p.set 0 (prof.pm.getD 0 0) }
            = { prof with p := prof.p.set 0 (prof.pm.getD 0 0) } from rfl]
        exact getD_set_self _ _ _ (by rw [hlen, hM]; omega)
      · intro j hj
        omega
  | succ m =>
      have hm2 : m + 1 + 1 - 2 = m := by omega
      rw [hm2]
      obtain ⟨ihu, ihr⟩ := stage3down_spec C s m
        { prof with p := prof.p.set (m + 1) (prof.pm.getD (m + 1) 0) }
        (by omega) (by simp [hlen, hM])
      constructor
      · rw [ihu (m + 1) (by omega)]
        exact getD_set_self _ _ _ (by rw [hlen, hM]; omega)
      · intro j hj
        exact ihr j (by omega)

/-! ### End-to-end bridges -/

lemma integrate_match (C : Consts) (f : Formulation) (s : Sounding) (n : ℕ) :
    integrate C f s n
      = match stage2Aux (stage2Level C f s n) (s.levels.length - 1) 1
            (stage1 C f s n) with
        | .ok prof => .ok (stage3 C s prof)
        | .error e => .error e := rfl

/-- A successful integration determines the stage-2 output. -/
lemma integrate_ok_stage2 (C : Consts) (f : Formulation) (s : Sounding) (n : ℕ)
    (prof : Profile) (h : integrate C f s n = .ok prof) :
    ∃ prof2, stage2Aux (stage2Level C f s n) (s.levels.length - 1) 1
        (stage1 C f s n) = .ok prof2 ∧ prof = stage3 C s prof2 := by
  cases hs2 : stage2Aux (stage2Level C f s n) (s.levels.length - 1) 1
      (stage1 C f s n) with
  | ok prof2 =>
      rw [integrate_match, hs2] at h
      have h' : (Except.ok (stage3 C s prof2) : Except FailState Profile)
          = .ok prof := h
      injection h' with h''
      exact ⟨prof2, rfl, h''.symm⟩
  | error e =>
      rw [integrate_match, hs2] at h
      have h' : (Except.error e : Except FailState Profile) = .ok prof := h
      exact absurd h' (by simp)

/-- A failed integration determines the stage-2 error. -/
lemma integrate_err_stage2 (C : Consts) (f : Formulation) (s : Sounding) (n : ℕ)
    (e : FailState) (h : integrate C f s n = .error e) :
    stage2Aux (stage2Level C f s n) (s.levels.length - 1) 1 (stage1 C f s n)
      = .error e := by
  cases hs2 : stage2Aux (stage2Level C f s n) (s.levels.length - 1) 1
      (stage1 C f s n) with
  | ok prof2 =>
      rw [integrate_match, hs2] at h
      have h' : (Except.ok (stage3 C s prof2) : Except FailState Profile)
          = .error e := h
      exact absurd h' (by simp)
  | error e' =>
      rw [integrate_match, hs2] at h
      have h' : (Except.error e' : Except FailState Profile) = .error e := h
      injection h' with h''

/-- On success, every level of the output holds its recurrence value, and the
array lengths match the level table. -/
lemma integrate_ok_spec (C : Consts) (f : Formulation) (s : Sounding) (n : ℕ)
    (prof : Profile) (h : integrate C f s n = .ok prof) :
    prof.rho.length = s.levels.length ∧ prof.thm.length = s.levels.length ∧
    prof.pm.length = s.levels.length ∧ prof.p.length = s.levels.length ∧
    ∀ j, j < s.levels.length →
      prof.pm.getD j 0 = (specPair C f s n j).1 ∧
      prof.rho.getD j 0 = (specPair C f s n j).2 ∧
      prof.thm.getD j 0 = (lvD s j).th * qvfAt C f s j := by
  obtain ⟨prof2, hs2, rfl⟩ := integrate_ok_stage2 C f s n prof h
  obtain ⟨hr3, ht3, hp3⟩ := stage3_rtp C s prof2
  rcases Nat.eq_zero_or_pos s.levels.length with hN0 | hN1
  · have h0 : stage2Aux (stage2Level C f s n) (s.levels.length - 1) 1
        (stage1 C f s n) = .ok (stage1 C f s n) := by
      rw [hN0]
      rfl
    rw [h0] at hs2
    have h2 : (Except.ok (stage1 C f s n) : Except FailState Profile)
        = .ok prof2 := hs2
    injection h2 with h2'
    subst h2'
    refine ⟨?_, ?_, ?_, ?_, ?_⟩
    · rw [hr3, stage1_rho]; simp
    · rw [ht3, stage1_thm]; simp
    · rw [hp3, stage1_pm]; simp
    · rw [stage3_p_length, stage1_p]; simp
    · intro j hj
      omega
  · have hsm := stage2Aux_ok_specMatch C f s n (s.levels.length - 1) 1
      (stage1 C f s n) prof2 (le_refl 1) (by omega)
      (stage1_specMatch C f s n hN1) hs2
    obtain ⟨h1, h2, h3, h4, hlow, _⟩ := hsm
    refine ⟨by rw [hr3]; exact h1, by rw [ht3]; exact h2, by rw [hp3]; exact h3,
      by rw [stage3_p_length, h4]; simp, ?_⟩
    intro j hj
    obtain ⟨a, b, c⟩ := hlow j hj
    exact ⟨by rw [hp3]; exact a, by rw [hr3]; exact b, by rw [ht3]; exact c⟩

/-- On failure, the error is a stage-2 assertion failure at some level `j ≥ 1`
with the partially-written state described by `ErrAnat`. -/
lemma integrate_err_anat (C : Consts) (f : Formulation) (s : Sounding) (n : ℕ)
    (e : FailState) (h : integrate C f s n = .error e) :
    ∃ j, 1 ≤ j ∧ j < s.levels.length ∧ ErrAnat C f s n e j := by
  have hs2 := integrate_err_stage2 C f s n e h
  rcases Nat.eq_zero_or_pos s.levels.length with hN0 | hN1
  · rw [hN0] at hs2
    have h2 : (Except.ok (stage1 C f s n) : Except FailState Profile)
        = .error e := hs2
    exact absurd h2 (by simp)
  · exact stage2Aux_err_anat C f s n (s.levels.length - 1) 1
      (stage1 C f s n) e (le_refl 1) (by omega)
      (stage1_specMatch C f s n hN1) hs2

/-- Integration succeeds exactly when every stage-2 inner iteration writes a
positive pressure. -/
lemma integrate_isOk_iff (C : Consts) (f : Formulation) (s : Sounding) (n : ℕ) :
    (integrate C f s n).isOk = true ↔
      ∀ k, 1 ≤ k → k < s.levels.length → ∀ i, i < n →
        0 < ((stepAt C f s n k)^[i + 1] (0, rhoPrevAt C f s n k)).1 := by
  rcases Nat.eq_zero_or_pos s.levels.length with hN0 | hN1
  · constructor
    · intro _ k hk1 hk2 i hi
      omega
    · intro _
      rw [integrate_match, hN0]
      rfl
  · have hiff := stage2Aux_isOk_iff C f s n (s.levels.length - 1) 1
      (stage1 C f s n) (le_refl 1) (by omega) (stage1_specMatch C f s n hN1)
    rw [← hiff]
    cases hs2 : stage2Aux (stage2Level C f s n) (s.levels.length - 1) 1
        (stage1 C f s n) with
    | ok prof2 => rw [integrate_match, hs2]; exact Iff.rfl
    | error e => rw [integrate_match, hs2]

/-- On success, the dry pressure satisfies the downward recurrence in terms of
the output's own arrays. -/
lemma integrate_ok_p (C : Consts) (f : Formulation) (s : Sounding) (n : ℕ)
    (prof : Profile) (hN : 1 ≤ s.levels.length)
    (h : integrate C f s n = .ok prof) :
    prof.p.getD (s.levels.length - 1) 0 = prof.pm.getD (s.levels.length - 1) 0 ∧
      ∀ j, j + 1 < s.levels.length →
        prof.p.getD j 0
          = prof.p.getD (j + 1) 0
            + 1/2 * ((lvD s (j + 1)).z - (lvD s j).z)
              * (prof.rho.getD j 0 + prof.rho.getD (j + 1) 0) * C.g := by
  obtain ⟨prof2, hs2, rfl⟩ := integrate_ok_stage2 C f s n prof h
  obtain ⟨hr3, ht3, hp3⟩ := stage3_rtp C s prof2
  have hlen2 : prof2.p.length = s.levels.length := by
    rcases Nat.eq_zero_or_pos s.levels.length with hN0 | hN1
    · omega
    · have hsm := stage2Aux_ok_specMatch C f s n (s.levels.length - 1) 1
        (stage1 C f s n) prof2 (le_refl 1) (by omega)
        (stage1_specMatch C f s n hN1) hs2
      rw [hsm.2.2.2.1]
      simp
  obtain ⟨htop, hrec⟩ := stage3_p_spec C s prof2 hlen2 hN
  exact ⟨by rw [htop, hp3], fun j hj => by rw [hrec j hj, hr3]⟩

/-! ### Congruence lemmas -/

/-- The downward pass reads the sounding only through its level table. -/
lemma stage3down_congr (C : Consts) (s1 s2 : Sounding)
    (hlv : s1.levels = s2.levels) :
    ∀ (c k : ℕ) (prof : Profile),
      stage3down C s1 c k prof = stage3down C s2 c k prof := by
  have hl : lvD s1 = lvD s2 := by
    funext k
    rw [lvD, lvD, hlv]
  intro c
  induction c with
  | zero => intro k prof; rfl
  | succ c ih =>
      intro k prof
      rw [show stage3down C s1 (c + 1) k prof
          = stage3down C s1 c (k - 1)
              { prof with p := prof.p.set k (prof.p.getD (k + 1) 0
                  + 1/2 * ((lvD s1 (k + 1)).z - (lvD s1 k).z)
                    * (prof.rho.getD k 0 + prof.rho.getD (k + 1) 0) * C.g) }
          from rfl,
        show stage3down C s2 (c + 1) k prof
          = stage3down C s2 c (k - 1)
              { prof with p := prof.p.set k (prof.p.getD (k + 1) 0
                  + 1/2 * ((lvD s2 (k + 1)).z - (lvD s2 k).z)
                    * (prof.rho.getD k 0 + prof.rho.getD (k + 1) 0) * C.g) }
          from rfl, hl, ih]

/-- Stage 3 reads the sounding only through its level table. -/
lemma stage3_congr (C : Consts) (s1 s2 : Sounding)
    (hlv : s1.levels = s2.levels) (prof : Profile) :
    stage3 C s1 prof = stage3 C s2 prof := by
  rw [show stage3 C s1 prof
      = stage3down C s1 (s1.levels.length - 1) (s1.levels.length - 2)
          { prof with
              p := (prof.p.set (s1.levels.length - 1)
                      (prof.pm.getD (s1.levels.length - 1) 0)) } from rfl,
    show stage3 C s2 prof
      = stage3down C s2 (s2.levels.length - 1) (s2.levels.length - 2)
          { prof with
              p := (prof.p.set (s2.levels.length - 1)
                      (prof.pm.getD (s2.levels.length - 1) 0)) } from rfl,
    hlv, stage3down_congr C s1 s2 hlv]

/-- Two formulations whose factor computations agree on the given sounding
produce identical stage-1 output. -/
lemma stage1_formulation_congr (C : Consts) (f1 f2 : Formulation) (s : Sounding)
    (n : ℕ) (hS : qvfSurfOf C f1 s = qvfSurfOf C f2 s)
    (h0 : qvfOf C f1 (lvD s 0).qv = qvfOf C f2 (lvD s 0).qv) :
    stage1 C f1 s n = stage1 C f2 s n := by
  simp only [stage1, hS, h0]

/-- Two formulations whose factor computations agree on the given sounding
run the stage-2 level body identically. -/
lemma stage2Level_formulation_congr (C : Consts) (f1 f2 : Formulation)
    (s : Sounding) (n : ℕ) (prof : Profile) (k : ℕ)
    (h : qvfOf C f1 (lvD s k).qv = qvfOf C f2 (lvD s k).qv) :
    stage2Level C f1 s n prof k = stage2Level C f2 s n prof k := by
  simp only [stage2Level, h]

lemma stage2Aux_formulation_congr (C : Consts) (f1 f2 : Formulation)
    (s : Sounding) (n : ℕ)
    (h : ∀ k, qvfOf C f1 (lvD s k).qv = qvfOf C f2 (lvD s k).qv) :
    ∀ (c k : ℕ) (prof : Profile),
      stage2Aux (stage2Level C f1 s n) c k prof
        = stage2Aux (stage2Level C f2 s n) c k prof := by
  intro c
  induction c with
  | zero => intro k prof; rfl
  | succ c ih =>
      intro k prof
      rw [stage2Aux, stage2Aux,
        stage2Level_formulation_congr C f1 f2 s n prof k (h k)]
      cases stage2Level C f2 s n prof k with
      | ok p2 => exact ih (k + 1) p2
      | error e => rfl

/-- Two formulations whose factor computations agree on the given sounding
produce identical integration output. -/
lemma integrate_formulation_congr (C : Consts) (f1 f2 : Formulation)
    (s : Sounding) (n : ℕ) (hS : qvfSurfOf C f1 s = qvfSurfOf C f2 s)
    (h : ∀ k, qvfOf C f1 (lvD s k).qv = qvfOf C f2 (lvD s k).qv) :
    integrate C f1 s n = integrate C f2 s n := by
  rw [integrate_match, integrate_match,
    stage1_formulation_congr C f1 f2 s n hS (h 0),
    stage2Aux_formulation_congr C f1 f2 s n h]

/-! ### The object-call model

The Python routines are methods mutating `self`: they read only the input
attributes (`p_surf`, `th_surf`, `qv_surf`, `z`, `th`, `qv`) and overwrite the
derived attributes with freshly allocated arrays on every call. -/

/-- The attributes of an `InputSounding` object relevant to integration: the
immutable inputs and the (re)computed derived arrays. -/
structure ObjState where
  snd : Sounding
  derived : Option Profile
deriving DecidableEq

/-- One call of an integration method on the object: the input attributes are
left untouched and the derived attributes are recomputed from scratch. -/
def callIntegrate (C : Consts) (f : Formulation) (n : ℕ) (st : ObjState) :
    ObjState :=
  ⟨st.snd, some (profOf (integrate C f st.snd n))⟩

/-! ### Concrete instances used by witnesses and counterexamples

`Cx` instantiates the abstract constants with simple positive values and a
constant power map, which is enough for every property that does not depend
on the analytic shape of `x ↦ x ** cvpm`. -/

def Cx : Consts := ⟨1, 2, 1, 1, 2, fun _ => 1⟩

/-- A benign two-level sounding on which integration succeeds. -/
def sOk : Sounding := ⟨100, 1, 0, [⟨1, 1, 0⟩, ⟨2, 1, 0⟩]⟩

/-- A single-level sounding whose stage-1 relaxation drives `pm[0]` to `-90`:
with no level above it, integration nevertheless completes. -/
def sOne : Sounding := ⟨10, 1/100, 0, [⟨1, 1/100, 0⟩]⟩

/-- A two-level sounding failing the stage-2 assertion at level 1. -/
def sFailA : Sounding := ⟨10, 1/100, 0, [⟨1, 1/100, 0⟩, ⟨2, 1/100, 0⟩]⟩

/-- A three-level sounding failing the stage-2 assertion at level 2 (second
inner iteration). -/
def sFailB : Sounding := ⟨1000, 1, 0, [⟨1, 1, 0⟩, ⟨2, 1, 0⟩, ⟨3, 1/10000, 0⟩]⟩

/-- Heights not strictly increasing (z drops from 2 to 1). -/
def sNonMono : Sounding := ⟨10, 1, 0, [⟨2, 1, 0⟩, ⟨1, 1, 0⟩]⟩

/-- All level moisture is zero but the surface moisture is not. -/
def sDryLev : Sounding := ⟨10, 1, 1/10, [⟨1, 1, 0⟩]⟩

/-- Same as `sQvB` except for the surface moisture value. -/
def sQvA : Sounding := ⟨10, 1, 0, [⟨1, 1, 0⟩]⟩

/-- Same as `sQvA` except for the surface moisture value. -/
def sQvB : Sounding := ⟨10, 1, 1, [⟨1, 1, 0⟩]⟩

/-! ### Claims -/

/-- Claim C1: for every input on which integration succeeds, stage 2 realizes,
at each level `k ≥ 1`, exactly `n` repetitions of the hydrostatic step
`pm[k] = pm[k-1] - 0.5*dz*(rho[k]+rho[k-1])*g*qvf1` followed by the
equation-of-state update of `rho[k]`, starting from `rho[k] = rho[k-1]`, with
`dz = z[k]-z[k-1]`, `qvf1 = 0.5*(2+qv[k-1]+qv[k])`, `qvf` from the chosen
formulation at `qv[k]`, no convergence check, and finally
`thm[k] = th[k]*qvf`. -/
theorem stage2_fixed_iteration_recurrence (C : Consts) (f : Formulation)
    (s : Sounding) (n : ℕ) (prof : Profile)
    (h : integrate C f s n = .ok prof) (k : ℕ) (hk : 1 ≤ k)
    (hkN : k < s.levels.length) :
    prof.pm.getD k 0 = (specPair C f s n k).1 ∧
    prof.rho.getD k 0 = (specPair C f s n k).2 ∧
    prof.thm.getD k 0 = (lvD s k).th * qvfOf C f (lvD s k).qv ∧
    specPair C f s n k
      = (relaxStep C (specPair C f s n (k - 1)).1
          ((lvD s k).z - (lvD s (k - 1)).z) (lvD s k).th
          (qvfOf C f (lvD s k).qv)
          (1/2 * (2 + ((lvD s (k - 1)).qv + (lvD s k).qv)))
          (specPair C f s n (k - 1)).2)^[n]
          (0, (specPair C f s n (k - 1)).2) := by
  obtain ⟨_, _, _, _, hspec⟩ := integrate_ok_spec C f s n prof h
  obtain ⟨a, b, c⟩ := hspec k hkN
  refine ⟨a, b, c, ?_⟩
  obtain ⟨m, rfl⟩ : ∃ m, k = m + 1 := ⟨k - 1, by omega⟩
  rw [specPair_succ, relaxFree_eq_iterate]
  rfl

theorem stage2_fixed_iteration_recurrence_witness :
    (profOf (integrate Cx .LEGACY sOk 1)).pm.getD 1 0
        = (specPair Cx .LEGACY sOk 1 1).1 ∧
    (profOf (integrate Cx .LEGACY sOk 1)).rho.getD 1 0
        = (specPair Cx .LEGACY sOk 1 1).2 ∧
    (profOf (integrate Cx .LEGACY sOk 1)).thm.getD 1 0
        = (lvD sOk 1).th * qvfOf Cx .LEGACY (lvD sOk 1).qv ∧
    specPair Cx .LEGACY sOk 1 1
      = (relaxStep Cx (specPair Cx .LEGACY sOk 1 0).1
          ((lvD sOk 1).z - (lvD sOk 0).z) (lvD sOk 1).th
          (qvfOf Cx .LEGACY (lvD sOk 1).qv)
          (1/2 * (2 + ((lvD sOk 0).qv + (lvD sOk 1).qv)))
          (specPair Cx .LEGACY sOk 1 0).2)^[1]
          (0, (specPair Cx .LEGACY sOk 1 0).2) :=
  stage2_fixed_iteration_recurrence Cx .LEGACY sOk 1
    (profOf (integrate Cx .LEGACY sOk 1)) (by with_unfolding_all rfl) 1
    (by decide) (by decide)

/-- Claim C2 (amended): integration succeeds exactly when every stage-2 inner
iteration writes a positive `pm[k]`; any violation surfaces immediately as
the assertion failure.  (The original claim's statement that the surfaced
error reports the failing level index and the last valid pressure is false:
the `AssertionError` carries only the fixed message, see the
counterexample.) -/
theorem domain_failure_iff_nonpositive_pm (C : Consts) (f : Formulation)
    (s : Sounding) (n : ℕ) :
    (integrate C f s n).isOk = true ↔
      ∀ k, 1 ≤ k → k < s.levels.length → ∀ i, i < n →
        0 < ((stepAt C f s n k)^[i + 1] (0, rhoPrevAt C f s n k)).1 :=
  integrate_isOk_iff C f s n

/-- Claim C2 (counterexample): two inputs that fail at different levels (the
first never finishes level 1, the second finishes level 1 and fails at
level 2) surface literally identical errors, so the surfaced error reports
neither the failing level index nor the last valid pressure. -/
theorem domain_failure_message_uninformative :
    (integrate Cx .LEGACY sFailA 2).isOk = false ∧
    (integrate Cx .LEGACY sFailB 2).isOk = false ∧
    errMsgOf (integrate Cx .LEGACY sFailA 2)
      = errMsgOf (integrate Cx .LEGACY sFailB 2) ∧
    (profOf (integrate Cx .LEGACY sFailA 2)).thm.getD 1 0 = 0 ∧
    (profOf (integrate Cx .LEGACY sFailB 2)).thm.getD 1 0 ≠ 0 := by
  with_unfolding_all decide

/-- Claim C3 (amended): the LEGACY path (`integrate_column_wrf`) never reads
`qv_surf`: two runs differing only in `qv_surf` produce identical output.
(The original claim asserted this for both formulations; it is false for
`VIRTUAL_POTENTIAL_TEMPERATURE`, whose `rho_surf` uses `qv_surf` — see the
counterexample.) -/
theorem legacy_ignores_qv_surf (C : Consts) (n : ℕ) (ps ts q1 q2 : ℚ)
    (L : List Level) :
    integrate C .LEGACY ⟨ps, ts, q1, L⟩ n
      = integrate C .LEGACY ⟨ps, ts, q2, L⟩ n := by
  have h1 : stage1 C .LEGACY ⟨ps, ts, q1, L⟩ n
      = stage1 C .LEGACY ⟨ps, ts, q2, L⟩ n := rfl
  have h2 : stage2Level C .LEGACY (⟨ps, ts, q1, L⟩ : Sounding) n
      = stage2Level C .LEGACY (⟨ps, ts, q2, L⟩ : Sounding) n :=
    funext fun prof => funext fun k => rfl
  have h0 : (⟨ps, ts, q1, L⟩ : Sounding).levels
      = (⟨ps, ts, q2, L⟩ : Sounding).levels := rfl
  have h3 : stage3 C (⟨ps, ts, q1, L⟩ : Sounding)
      = stage3 C (⟨ps, ts, q2, L⟩ : Sounding) :=
    funext fun prof => stage3_congr C _ _ h0 prof
  rw [integrate_match, integrate_match, h1, h2, h0, h3]

/-- Claim C3 (counterexample): under `VIRTUAL_POTENTIAL_TEMPERATURE`
(`integrate_column`), two inputs identical except for `qv_surf` produce
different profiles — `qv_surf` is read at line 108 to form `rho_surf`. -/
theorem vpt_depends_on_qv_surf :
    sQvA.p_surf = sQvB.p_surf ∧ sQvA.th_surf = sQvB.th_surf ∧
    sQvA.levels = sQvB.levels ∧ sQvA.qv_surf ≠ sQvB.qv_surf ∧
    (profOf (integrate Cx .VIRTUAL_POTENTIAL_TEMPERATURE sQvA 1)).pm.getD 0 0
      ≠ (profOf (integrate Cx .VIRTUAL_POTENTIAL_TEMPERATURE sQvB 1)).pm.getD 0 0 := by
  with_unfolding_all decide

/-- Claim C4 (amended): when the moisture is zero at every level and also at
the surface, both formulations produce identical output (every `qvf` factor
is 1 in both).  (The original claim required only the levels to be dry; it is
false when `qv_surf` is nonzero, because the VPT path's surface factor reads
`qv_surf` — see the counterexample.) -/
theorem dry_formulations_agree (C : Consts) (s : Sounding) (n : ℕ)
    (hqs : s.qv_surf = 0) (hqv : ∀ lv ∈ s.levels, lv.qv = 0) :
    integrate C .LEGACY s n
      = integrate C .VIRTUAL_POTENTIAL_TEMPERATURE s n := by
  have hq : ∀ k, (lvD s k).qv = 0 := by
    intro k
    rcases Nat.lt_or_ge k s.levels.length with hk | hk
    · refine hqv _ ?_
      rw [lvD, List.getD_eq_getElem _ _ hk]
      exact List.getElem_mem hk
    · rw [lvD, List.getD_eq_default _ _ hk]
  apply integrate_formulation_congr
  · show 1 + C.rvovrd * (lvD s 0).qv = 1 + (C.rvovrd - 1) * s.qv_surf
    rw [hq 0, hqs]
    ring
  · intro k
    show 1 + C.rvovrd * (lvD s k).qv = 1 + (C.rvovrd - 1) * (lvD s k).qv
    rw [hq k]
    ring

theorem dry_formulations_agree_witness :
    sQvA.qv_surf = 0 ∧
    integrate Cx .LEGACY sQvA 1
      = integrate Cx .VIRTUAL_POTENTIAL_TEMPERATURE sQvA 1 :=
  ⟨rfl, dry_formulations_agree Cx sQvA 1 rfl (by with_unfolding_all decide)⟩

/-- Claim C4 (counterexample): an input whose level table is entirely dry but
whose surface moisture is nonzero produces different output under the two
formulations. -/
theorem dry_levels_formulations_differ :
    List.map Level.qv sDryLev.levels = [0] ∧
    (profOf (integrate Cx .LEGACY sDryLev 1)).pm.getD 0 0
      ≠ (profOf (integrate Cx .VIRTUAL_POTENTIAL_TEMPERATURE sDryLev 1)).pm.getD 0 0 := by
  with_unfolding_all decide

/-- Claim C5: on every successful run, stage 3 sets `p[N-1]` exactly to
`pm[N-1]` and fills the rest by the single-pass downward trapezoidal
recurrence `p[k] = p[k+1] + 0.5*(z[k+1]-z[k])*(rho[k]+rho[k+1])*g`, using
only stage 2's finalized densities. -/
theorem stage3_downward_recovery (C : Consts) (f : Formulation) (s : Sounding)
    (n : ℕ) (prof : Profile) (hN : 1 ≤ s.levels.length)
    (h : integrate C f s n = .ok prof) :
    prof.p.getD (s.levels.length - 1) 0 = prof.pm.getD (s.levels.length - 1) 0 ∧
      ∀ k, k + 1 < s.levels.length →
        prof.p.getD k 0
          = prof.p.getD (k + 1) 0
            + 1/2 * ((lvD s (k + 1)).z - (lvD s k).z)
              * (prof.rho.getD k 0 + prof.rho.getD (k + 1) 0) * C.g :=
  integrate_ok_p C f s n prof hN h

theorem stage3_downward_recovery_witness :
    (profOf (integrate Cx .LEGACY sOk 1)).p.getD 1 0
        = (profOf (integrate Cx .LEGACY sOk 1)).pm.getD 1 0 ∧
    (profOf (integrate Cx .LEGACY sOk 1)).p.getD 0 0
      = (profOf (integrate Cx .LEGACY sOk 1)).p.getD 1 0
        + 1/2 * ((lvD sOk 1).z - (lvD sOk 0).z)
          * ((profOf (integrate Cx .LEGACY sOk 1)).rho.getD 0 0
              + (profOf (integrate Cx .LEGACY sOk 1)).rho.getD 1 0) * Cx.g := by
  obtain ⟨h1, h2⟩ := stage3_downward_recovery Cx .LEGACY sOk 1
    (profOf (integrate Cx .LEGACY sOk 1)) (by decide) (by with_unfolding_all rfl)
  exact ⟨h1, h2 0 (by decide)⟩

/-- Claim C6 (amended): the integrator performs no input-shape validation at
all: the only error it can ever signal is the stage-2 domain assertion with
its fixed message; in particular an input whose heights are not strictly
increasing is integrated without complaint (see the counterexample).  (The
original claim said invalid shapes are signaled before integration begins;
no such check exists in either routine.) -/
theorem only_error_is_domain_assert (C : Consts) (f : Formulation)
    (s : Sounding) (n : ℕ) (e : FailState)
    (h : integrate C f s n = .error e) : e.msg = tooColdMsg := by
  obtain ⟨j, _, _, hanat⟩ := integrate_err_anat C f s n e h
  exact hanat.2.2.2.2.2.2.2

theorem only_error_is_domain_assert_witness :
    (errOf (integrate Cx .LEGACY sFailA 2)).msg = tooColdMsg :=
  only_error_is_domain_assert Cx .LEGACY sFailA 2
    (errOf (integrate Cx .LEGACY sFailA 2)) (by with_unfolding_all rfl)

/-- Claim C6 (counterexample): a level table whose heights strictly decrease
is accepted by both formulations and integration completes successfully — no
error is signaled before (or during) integration. -/
theorem nonmonotone_heights_accepted :
    (lvD sNonMono 1).z < (lvD sNonMono 0).z ∧
    (integrate Cx .LEGACY sNonMono 1).isOk = true ∧
    (integrate Cx .VIRTUAL_POTENTIAL_TEMPERATURE sNonMono 1).isOk = true := by
  with_unfolding_all decide

/-- Claim C7: for a stably stratified successful input — strictly increasing
heights, non-negative moisture, positive temperatures and moisture factors,
non-decreasing virtual potential temperature `th*qvf` (the formalization of
"potential temperature non-decreasing with moderate moisture"), all relaxed
densities and pressures positive, and the power map positive and antitone on
positive arguments as `x ↦ x**cvpm` with `cvpm < 0` is — the moist and dry
pressures are strictly decreasing in the level index and density is
non-increasing. -/
theorem stratified_monotone_profiles (C : Consts) (f : Formulation)
    (s : Sounding) (n : ℕ) (prof : Profile)
    (hg : 0 < C.g) (hrd : 0 < C.R_d) (hp0 : 0 < C.p0) (hn : 1 ≤ n)
    (hpwPos : ∀ x : ℚ, 0 < x → 0 < C.pw x)
    (hpwAnti : ∀ x y : ℚ, 0 < x → x ≤ y → C.pw y ≤ C.pw x)
    (hz : ∀ k, k + 1 < s.levels.length → (lvD s k).z < (lvD s (k + 1)).z)
    (hqv : ∀ k, k < s.levels.length → 0 ≤ (lvD s k).qv)
    (hth : ∀ k, k < s.levels.length → 0 < (lvD s k).th)
    (hqvf : ∀ k, k < s.levels.length → 0 < qvfOf C f (lvD s k).qv)
    (hvth : ∀ k, k + 1 < s.levels.length →
      (lvD s k).th * qvfOf C f (lvD s k).qv
        ≤ (lvD s (k + 1)).th * qvfOf C f (lvD s (k + 1)).qv)
    (hpm : ∀ k, k < s.levels.length → 0 < (specPair C f s n k).1)
    (hrho : ∀ k, k < s.levels.length → ∀ i, i ≤ n →
      0 < ((stepAt C f s n k)^[i] (0, rhoPrevAt C f s n k)).2)
    (h : integrate C f s n = .ok prof) :
    ∀ k, k + 1 < s.levels.length →
      prof.pm.getD (k + 1) 0 < prof.pm.getD k 0 ∧
      prof.p.getD (k + 1) 0 < prof.p.getD k 0 ∧
      prof.rho.getD (k + 1) 0 ≤ prof.rho.getD k 0 := by
  intro k hk
  have hN : 1 ≤ s.levels.length := by omega
  obtain ⟨_, _, _, _, hspec⟩ := integrate_ok_spec C f s n prof h
  obtain ⟨htop, hrec⟩ := integrate_ok_p C f s n prof hN h
  obtain ⟨apm, arho, _⟩ := hspec k (by omega)
  obtain ⟨bpm, brho, _⟩ := hspec (k + 1) hk
  have hrhoFin : ∀ j, j < s.levels.length → 0 < (specPair C f s n j).2 := by
    intro j hj
    have hx := hrho j hj n (le_refl n)
    rwa [← specPair_eq_iterate] at hx
  have hdz : 0 < dzAt s (k + 1) := by
    have hzz := hz k hk
    have e : dzAt s (k + 1) = (lvD s (k + 1)).z - (lvD s k).z := rfl
    rw [e]
    linarith
  have hq1 : 0 < qvf1At s (k + 1) := by
    have e : qvf1At s (k + 1)
        = 1/2 * (2 + ((lvD s k).qv + (lvD s (k + 1)).qv)) := rfl
    have h1 := hqv k (by omega)
    have h2 := hqv (k + 1) hk
    rw [e]
    linarith
  have erp : rhoPrevAt C f s n (k + 1) = (specPair C f s n k).2 := rfl
  have epp : pPrevAt C f s n (k + 1) = (specPair C f s n k).1 := rfl
  have hpmdec : (specPair C f s n (k + 1)).1 < (specPair C f s n k).1 := by
    obtain ⟨m, rfl⟩ : ∃ m, n = m + 1 := ⟨n - 1, by omega⟩
    have hit := specPair_eq_iterate C f s (m + 1) (k + 1)
    rw [hit, Function.iterate_succ_apply']
    have estep : ∀ st : ℚ × ℚ, (stepAt C f s (m + 1) (k + 1) st).1
        = pPrevAt C f s (m + 1) (k + 1)
          - 1/2 * dzAt s (k + 1) * (st.2 + rhoPrevAt C f s (m + 1) (k + 1))
            * C.g * qvf1At s (k + 1) := fun st => rfl
    rw [estep, epp]
    have h1 : 0 < ((stepAt C f s (m + 1) (k + 1))^[m]
        (0, rhoPrevAt C f s (m + 1) (k + 1))).2 := hrho (k + 1) hk m (by omega)
    have h2 : 0 < rhoPrevAt C f s (m + 1) (k + 1) := by
      rw [erp]
      exact hrhoFin k (by omega)
    have hpos : 0 < 1/2 * dzAt s (k + 1)
        * (((stepAt C f s (m + 1) (k + 1))^[m]
            (0, rhoPrevAt C f s (m + 1) (k + 1))).2
          + rhoPrevAt C f s (m + 1) (k + 1)) * C.g * qvf1At s (k + 1) := by
      have hsum : 0 < ((stepAt C f s (m + 1) (k + 1))^[m]
          (0, rhoPrevAt C f s (m + 1) (k + 1))).2
            + rhoPrevAt C f s (m + 1) (k + 1) := by linarith
      have hhalf : 0 < (1/2 : ℚ) * dzAt s (k + 1) := by linarith
      exact mul_pos (mul_pos (mul_pos hhalf hsum) hg) hq1
    linarith
  have heos : ∀ j, j < s.levels.length → (specPair C f s n j).2
      = rho_eos C (lvD s j).th (qvfAt C f s j) (specPair C f s n j).1 := by
    intro j hj
    obtain ⟨m, hm⟩ : ∃ m, n = m + 1 := ⟨n - 1, by omega⟩
    rw [specPair_eq_iterate, hm, Function.iterate_succ_apply']
    exact relaxStep_snd C (pPrevAt C f s (m + 1) j) (dzAt s j) (lvD s j).th
      (qvfAt C f s j) (qvf1At s j) (rhoPrevAt C f s (m + 1) j) _
  have hrhodec : (specPair C f s n (k + 1)).2 ≤ (specPair C f s n k).2 := by
    rw [heos k (by omega), heos (k + 1) hk, rho_eos, rho_eos]
    have hA : 0 < C.R_d / C.p0 := div_pos hrd hp0
    have hpm1 : 0 < (specPair C f s n k).1 := hpm k (by omega)
    have hpm2 : 0 < (specPair C f s n (k + 1)).1 := hpm (k + 1) hk
    have hx1 : 0 < (specPair C f s n k).1 / C.p0 := div_pos hpm1 hp0
    have hx2 : 0 < (specPair C f s n (k + 1)).1 / C.p0 := div_pos hpm2 hp0
    have hple : (specPair C f s n (k + 1)).1 / C.p0
        ≤ (specPair C f s n k).1 / C.p0 :=
      (div_le_div_iff_of_pos_right hp0).mpr hpmdec.le
    have hpw1 : 0 < C.pw ((specPair C f s n k).1 / C.p0) := hpwPos _ hx1
    have hpw2 : 0 < C.pw ((specPair C f s n (k + 1)).1 / C.p0) := hpwPos _ hx2
    have hpwle : C.pw ((specPair C f s n k).1 / C.p0)
        ≤ C.pw ((specPair C f s n (k + 1)).1 / C.p0) := hpwAnti _ _ hx2 hple
    have hth2 : 0 < (lvD s (k + 1)).th * qvfAt C f s (k + 1) :=
      mul_pos (hth (k + 1) hk) (hqvf (k + 1) hk)
    have hmle : (lvD s k).th * qvfAt C f s k * C.pw ((specPair C f s n k).1 / C.p0)
        ≤ (lvD s (k + 1)).th * qvfAt C f s (k + 1)
          * C.pw ((specPair C f s n (k + 1)).1 / C.p0) :=
      mul_le_mul (hvth k hk) hpwle (le_of_lt hpw1) (le_of_lt hth2)
    have hd1 : 0 < C.R_d / C.p0 * (lvD s k).th * qvfAt C f s k
        * C.pw ((specPair C f s n k).1 / C.p0) :=
      mul_pos (mul_pos (mul_pos hA (hth k (by omega))) (hqvf k (by omega))) hpw1
    have hdle : C.R_d / C.p0 * (lvD s k).th * qvfAt C f s k
        * C.pw ((specPair C f s n k).1 / C.p0)
        ≤ C.R_d / C.p0 * (lvD s (k + 1)).th * qvfAt C f s (k + 1)
          * C.pw ((specPair C f s n (k + 1)).1 / C.p0) := by
      calc C.R_d / C.p0 * (lvD s k).th * qvfAt C f s k
            * C.pw ((specPair C f s n k).1 / C.p0)
          = C.R_d / C.p0 * ((lvD s k).th * qvfAt C f s k
              * C.pw ((specPair C f s n k).1 / C.p0)) := by ring
        _ ≤ C.R_d / C.p0 * ((lvD s (k + 1)).th * qvfAt C f s (k + 1)
              * C.pw ((specPair C f s n (k + 1)).1 / C.p0)) :=
            mul_le_mul_of_nonneg_left hmle (le_of_lt hA)
        _ = C.R_d / C.p0 * (lvD s (k + 1)).th * qvfAt C f s (k + 1)
              * C.pw ((specPair C f s n (k + 1)).1 / C.p0) := by ring
    exact one_div_le_one_div_of_le hd1 hdle
  have hpdec : prof.p.getD (k + 1) 0 < prof.p.getD k 0 := by
    have hr := hrec k hk
    have hzz := hz k hk
    have hpos : 0 < 1/2 * ((lvD s (k + 1)).z - (lvD s k).z)
        * (prof.rho.getD k 0 + prof.rho.getD (k + 1) 0) * C.g := by
      have hsum : 0 < prof.rho.getD k 0 + prof.rho.getD (k + 1) 0 := by
        rw [arho, brho]
        have hh1 := hrhoFin k (by omega)
        have hh2 := hrhoFin (k + 1) hk
        linarith
      have hhalf : 0 < (1/2 : ℚ) * ((lvD s (k + 1)).z - (lvD s k).z) := by
        linarith
      exact mul_pos (mul_pos hhalf hsum) hg
    rw [hr]
    linarith
  refine ⟨?_, hpdec, ?_⟩
  · rw [apm, bpm]
    exact hpmdec
  · rw [arho, brho]
    exact hrhodec

theorem stratified_monotone_profiles_witness :
    (profOf (integrate Cx .LEGACY sOk 1)).pm.getD 1 0
        < (profOf (integrate Cx .LEGACY sOk 1)).pm.getD 0 0 ∧
    (profOf (integrate Cx .LEGACY sOk 1)).p.getD 1 0
        < (profOf (integrate Cx .LEGACY sOk 1)).p.getD 0 0 ∧
    (profOf (integrate Cx .LEGACY sOk 1)).rho.getD 1 0
        ≤ (profOf (integrate Cx .LEGACY sOk 1)).rho.getD 0 0 := by
  have hL : sOk.levels.length = 2 := by decide
  have h := stratified_monotone_profiles Cx .LEGACY sOk 1
    (profOf (integrate Cx .LEGACY sOk 1))
    (by norm_num [Cx]) (by norm_num [Cx]) (by norm_num [Cx]) (by norm_num)
    (fun x hx => by norm_num [Cx])
    (fun x y hx hxy => by norm_num [Cx])
    (by
      intro k hk
      rw [hL] at hk
      have hk0 : k = 0 := by omega
      subst hk0
      with_unfolding_all decide)
    (by with_unfolding_all decide)
    (by with_unfolding_all decide)
    (by with_unfolding_all decide)
    (by
      intro k hk
      rw [hL] at hk
      have hk0 : k = 0 := by omega
      subst hk0
      with_unfolding_all decide)
    (by with_unfolding_all decide)
    (by with_unfolding_all decide)
    (by with_unfolding_all rfl)
  exact h 0 (by decide)

/-- Claim C8: the integration is a pure function of the input attributes, the
formulation and the iteration count: a call leaves the inputs untouched and
recomputes the derived arrays from scratch, so calling it a second time with
the same inputs reproduces the object state bit for bit. -/
theorem integrate_pure_idempotent (C : Consts) (f : Formulation) (n : ℕ)
    (st : ObjState) :
    callIntegrate C f n (callIntegrate C f n st) = callIntegrate C f n st ∧
    (callIntegrate C f n st).snd = st.snd :=
  ⟨rfl, rfl⟩

/-- Claim C9: stage 1 performs no positivity check on `pm[0]`: the guarded
assertion exists only in the stage-2 loop over levels `k ≥ 1`, so an input
with a single level never fails — even when the stage-1 relaxation drives
`pm[0]` non-positive and the equation of state is evaluated at a non-positive
pressure (see the witness, where `pm[0] = -90`). -/
theorem single_level_never_fails (C : Consts) (f : Formulation) (s : Sounding)
    (n : ℕ) (h1 : s.levels.length ≤ 1) : (integrate C f s n).isOk = true := by
  rw [integrate_isOk_iff]
  intro k hk hkN i hi
  omega

theorem single_level_never_fails_witness :
    sOne.levels.length ≤ 1 ∧
    (stage1 Cx .LEGACY sOne 1).pm.getD 0 0 ≤ 0 ∧
    (integrate Cx .LEGACY sOne 1).isOk = true :=
  ⟨by decide, by with_unfolding_all decide,
   single_level_never_fails Cx .LEGACY sOne 1 (by decide)⟩

/-- Claim C10: an assertion failure at stage-2 level `j` leaves the arrays
partially written: finalized values below `j`, the offending non-positive
`pm[j]` computed from the density of the last completed inner iteration,
`thm` still zero from `j` up, `pm`/`rho` still zero above `j`, and the dry
pressure array all zeros because stage 3 never runs. -/
theorem error_leaves_partial_state (C : Consts) (f : Formulation)
    (s : Sounding) (n : ℕ) (e : FailState)
    (h : integrate C f s n = .error e) :
    ∃ j, 1 ≤ j ∧ j < s.levels.length ∧ ErrAnat C f s n e j :=
  integrate_err_anat C f s n e h

theorem error_leaves_partial_state_witness :
    ∃ j, 1 ≤ j ∧ j < sFailA.levels.length ∧
      ErrAnat Cx .LEGACY sFailA 2 (errOf (integrate Cx .LEGACY sFailA 2)) j :=
  error_leaves_partial_state Cx .LEGACY sFailA 2
    (errOf (integrate Cx .LEGACY sFailA 2)) (by with_unfolding_all rfl)

end ERFTools
